import Mathlib

/-
  Verification of the cryptocomms core against its specification.

  The definitions below are a shallow embedding of the C++ sources:
  * CryptoMessageTracker (src/unnamed/part_002, header part_011) - the replay tracker;
  * SegmentNumGenerator (src/SegmentNumGenerator.cpp) - the persistent reservation
    allocator;
  * Connection (src/Connection.cpp) - create_packet, handle_message and move_data.

  Machine integers: all C++ integer types involved are unsigned.  Quantities are
  modelled as Nat; wherever C++ modular wrap-around can actually occur and matters
  (the 32-bit `unsigned int` subtraction in CryptoMessageTracker::reallocate_records,
  the 64-bit subtraction of timestamps in how_many_extra_blocks, and the overflow
  throw of std::stoull) the wrap is made explicit with `% 2^32` / `% 2^64`.
-/

set_option maxRecDepth 1000000

namespace Cryptocomms

/-- Decidable equality for `Except` results, used by the concrete evaluations
below. -/
instance {ε α : Type} [DecidableEq ε] [DecidableEq α] : DecidableEq (Except ε α) := fun x y =>
  match x, y with
  | .ok a, .ok b =>
    if h : a = b then .isTrue (congrArg Except.ok h)
    else .isFalse (fun hc => h (Except.ok.inj hc))
  | .error a, .error b =>
    if h : a = b then .isTrue (congrArg Except.error h)
    else .isFalse (fun hc => h (Except.error.inj hc))
  | .ok _, .error _ => .isFalse (fun hc => Except.noConfusion hc)
  | .error _, .ok _ => .isFalse (fun hc => Except.noConfusion hc)

/-! ## Replay tracker: CryptoMessageTracker -/

/-- `block_size` from CryptoMessageTracker.h: the number of message-number slots
per block of the ring buffer. -/
def block_size : Nat := 256

/-- `max_blocks` from CryptoMessageTracker.h: the maximum number of blocks the
ring buffer may grow to. -/
def max_blocks : Nat := 64

/-- One entry of `block_records_`: the count of logged message numbers in the
block (`first`) and the timestamp of the last log into the block (`second`). -/
structure BlockRecord where
  count : Nat
  stamp : Nat
deriving DecidableEq

/-- The state of a CryptoMessageTracker: `block_records_`, `msg_records_`,
`current_block_` and `base_msgnum_`. -/
structure CMT where
  block_records : List BlockRecord
  msg_records : List Bool
  current_block : Nat
  base_msgnum : Nat
deriving DecidableEq

/-- The state established by the CryptoMessageTracker constructor: one block,
all records clear, `current_block_ = 0`, `base_msgnum_ = 0`. -/
def cmtInit : CMT :=
  ⟨[⟨0, 0⟩], List.replicate block_size false, 0, 0⟩

/-- CryptoMessageTracker::reset(): clear all records and metadata, zero the
cursor and the base. -/
def CMT.reset (t : CMT) : CMT :=
  ⟨List.replicate t.block_records.length ⟨0, 0⟩,
   List.replicate t.msg_records.length false, 0, 0⟩

/-- CryptoMessageTracker::records_pos(): ring index of a message number assumed
to lie inside the current window. -/
def records_pos (t : CMT) (msgnum : Nat) : Nat :=
  ((msgnum - t.base_msgnum) + block_size * t.current_block) % t.msg_records.length

/-- CryptoMessageTracker::have_seen_msgnum(). -/
def have_seen_msgnum (t : CMT) (msgnum : Nat) : Bool :=
  if msgnum < t.base_msgnum then true
  else if t.base_msgnum + t.msg_records.length ≤ msgnum then false
  else t.msg_records.getD (records_pos t msgnum) false

/-- 2^64, the modulus of the C++ 64-bit unsigned types used for timestamps. -/
def wrap64 : Nat := 18446744073709551616

/-- 2^32, the modulus of the C++ `unsigned int` (the type of `current_block_`). -/
def wrap32 : Nat := 4294967296

/-- Unsigned 64-bit subtraction `a - b` (both arguments are below 2^64). -/
def sub64 (a b : Nat) : Nat := (a + wrap64 - b) % wrap64

/-- The loop condition inside how_many_extra_blocks: block `i` blocks on from
`current_block_` is worth retaining when it is not full and was written within
the current round-trip time. -/
def retain_worthy (t : CMT) (now rtt i : Nat) : Bool :=
  let br := t.block_records.getD ((i + t.current_block) % t.block_records.length) ⟨0, 0⟩
  decide (br.count < block_size) && decide (sub64 now br.stamp ≤ rtt)

/-- CryptoMessageTracker::how_many_extra_blocks(): how many blocks to enlarge
`msg_records_` by when the window must advance `d` blocks. -/
def how_many_extra_blocks (t : CMT) (d now rtt : Nat) : Nat :=
  if t.block_records.length = max_blocks then 0
  else
    let iLimit := min t.block_records.length d
    let i := match (List.range iLimit).find? (retain_worthy t now rtt) with
      | some j => j
      | none => iLimit
    min (d - i) (max_blocks - t.block_records.length)

/-- Resetting one block of the ring: clear its metadata and its `block_size`
booleans (the std::fill in move_records_window). -/
def resetBlock (t : CMT) (off : Nat) : CMT :=
  { t with
    block_records := t.block_records.set off ⟨0, 0⟩,
    msg_records := (t.msg_records.take (off * block_size)) ++
      List.replicate block_size false ++
      (t.msg_records.drop ((off + 1) * block_size)) }

/-- CryptoMessageTracker::move_records_window(): slide the ring `d` blocks
forward, resetting the blocks that are passed over. -/
def move_records_window (t : CMT) (d : Nat) : CMT :=
  let numReset := min t.block_records.length d
  let t1 := (List.range numReset).foldl
    (fun acc i => resetBlock acc ((i + acc.current_block) % acc.block_records.length)) t
  { t1 with
    current_block := (t1.current_block + d) % t1.block_records.length,
    base_msgnum := t1.base_msgnum + d * block_size }

/-- The `block_size` booleans of the block at ring offset `off` (the ranges fed
to std::copy in reallocate_records). -/
def blockSlice (msg : List Bool) (off : Nat) : List Bool :=
  (msg.drop (off * block_size)).take block_size

/-- CryptoMessageTracker::reallocate_records(): move the retained records into
bigger vectors with `num_extra_blocks` extra blocks and advance the window by
`num_blocks_forward` blocks.  The assignment of `current_block_` reproduces the
C++ `unsigned int` subtraction `current_block_ - num_blocks_to_copy`, which
wraps modulo 2^32 before the `%` by the (64-bit) vector size is applied. -/
def reallocate_records (t : CMT) (d extra : Nat) : CMT :=
  let oldSize := t.block_records.length
  let numCopy := if oldSize < d - extra then 0 else oldSize - (d - extra)
  let cb := ((t.current_block + wrap32 - numCopy) % wrap32) % oldSize
  let newBlocks :=
    (List.range numCopy).map (fun i => t.block_records.getD ((cb + i) % oldSize) ⟨0, 0⟩) ++
    List.replicate (oldSize + extra - numCopy) (⟨0, 0⟩ : BlockRecord)
  let newMsg :=
    ((List.range numCopy).map (fun i => blockSlice t.msg_records ((cb + i) % oldSize))).flatten ++
    List.replicate ((oldSize + extra - numCopy) * block_size) false
  ⟨newBlocks, newMsg, 0, t.base_msgnum + (d - extra) * block_size⟩

/-- CryptoMessageTracker::log_msgnum().  The C++ samples the clock internally;
here the sampled time `now` and the round-trip estimate `rtt` (the value
returned by `rtt_tracker_->current_rtt()`) are explicit inputs. -/
def log_msgnum (t : CMT) (msgnum now rtt : Nat) : CMT :=
  if msgnum < t.base_msgnum then t
  else
    let t1 :=
      if t.base_msgnum + t.msg_records.length ≤ msgnum then
        let d := (msgnum - (t.base_msgnum + t.msg_records.length)) / block_size + 1
        let extra := how_many_extra_blocks t d now rtt
        if extra = 0 then move_records_window t d else reallocate_records t d extra
      else t
    let i := records_pos t1 msgnum
    { t1 with
      msg_records := t1.msg_records.set i true,
      block_records := t1.block_records.set (i / block_size)
        ⟨(t1.block_records.getD (i / block_size) ⟨0, 0⟩).count + 1, now⟩ }

/-! ## Segment number generator: SegmentNumGenerator -/

/-- `segnum_max` from SegmentNumGenerator.cpp: 2^48 - 1, the largest value that
fits in a 6-byte segment number. -/
def segnum_max : Nat := 281474976710655

/-- The digit characters accepted by the check inside get_saved_segnum. -/
def digit_chars : List Char := "0123456789".data

/-- The character check lambda of get_saved_segnum. -/
def is_digit_char (c : Char) : Bool := digit_chars.contains c

/-- Decimal value of a line of characters (the value std::stoull computes on an
all-digit string). -/
def dec_value (l : List Char) : Nat := l.foldl (fun a c => 10 * a + (c.toNat - 48)) 0

/-- std::stoull restricted to the strings it is applied to in get_saved_segnum
(all characters are decimal digits): an empty string throws invalid_argument and
a value of 2^64 or more throws out_of_range; both exceptions are caught and
turned into the result 0, so both are modelled as `none`. -/
def stoull_model (l : List Char) : Option Nat :=
  if l.isEmpty then none
  else if dec_value l < wrap64 then some (dec_value l) else none

/-- get_saved_segnum from SegmentNumGenerator.cpp.  A file is `none` when it
cannot be opened, otherwise the list of lines successive std::getline calls
produce.  `.ok 0` is the in-band "missing or corrupt" result; `.error ()` is the
exception thrown when the stored value is at least `segnum_max`. -/
def get_saved_segnum : Option (List (List Char)) → Except Unit Nat
  | none => .ok 0
  | some [] => .ok 0
  | some [_] => .ok 0
  | some (l1 :: l2 :: rest) =>
    if l1 ≠ l2 then .ok 0
    else if rest.any (fun l => !l.isEmpty) then .ok 0
    else if !(l1.all is_digit_char) then .ok 0
    else
      match stoull_model l1 with
      | none => .ok 0
      | some v => if v < segnum_max then .ok v else .error ()

/-- The state of a SegmentNumGenerator together with the two on-disk files.
`disk_first`/`disk_second` hold the segment number the corresponding file
stores, i.e. the value get_saved_segnum returns for it; this is exactly the
postcondition of save_segnum, whose write loop re-reads the file and retries
until the re-read value equals the value written. -/
structure SNG where
  next_num_ : Nat
  new_reserve_needed_ : Nat
  reserved_ : Nat
  disk_first : Nat
  disk_second : Nat
deriving DecidableEq

/-- Reading one of the generator's own files at the value level: the stored
value is returned, except that a value of `segnum_max` or more throws (the
final check of get_saved_segnum). -/
def get_saved_value (d : Nat) : Except Unit Nat :=
  if d < segnum_max then .ok d else .error ()

/-- The part of SegmentNumGenerator::reserve_nums() that follows the two file
reads, given the two parsed values: take the maximum, fail if it is 0, draw a
clock value (get_segnum_sysclock throws when the clock exceeds `segnum_max`),
set `next_num_ = max(saved+1, clock)`, compute the new reservation limit, fail
if it exceeds `segnum_max`, and write `limit - 1` to both files. -/
def reserve_from (v1 v2 clock : Nat) (s : SNG) : Except Unit SNG :=
  let saved := max v1 v2
  if saved = 0 then .error ()
  else if segnum_max < clock then .error ()
  else
    let next := max (saved + 1) clock
    let limit := next + s.reserved_
    if segnum_max < limit then .error ()
    else .ok { s with
                next_num_ := next, new_reserve_needed_ := limit,
                disk_first := limit - 1, disk_second := limit - 1 }

/-- SegmentNumGenerator::reserve_nums(), reading the generator's own files at
the value level (see `SNG`). -/
def reserve_nums (clock : Nat) (s : SNG) : Except Unit SNG :=
  match get_saved_value s.disk_first, get_saved_value s.disk_second with
  | .ok v1, .ok v2 => reserve_from v1 v2 clock s
  | _, _ => .error ()

/-- SegmentNumGenerator::reserve_nums() applied to arbitrary file contents
(byte-level reads through get_saved_segnum). -/
def reserve_nums_files (f1 f2 : Option (List (List Char))) (clock : Nat)
    (s : SNG) : Except Unit SNG :=
  match get_saved_segnum f1, get_saved_segnum f2 with
  | .ok v1, .ok v2 => reserve_from v1 v2 clock s
  | _, _ => .error ()

/-- SegmentNumGenerator::next_num().  The clock value the reservation would use
is an explicit input. -/
def next_num (clock : Nat) (s : SNG) : Except Unit (Nat × SNG) :=
  match (if s.next_num_ = s.new_reserve_needed_ then reserve_nums clock s else .ok s) with
  | .error e => .error e
  | .ok s1 => .ok (s1.next_num_, { s1 with next_num_ := s1.next_num_ + 1 })

/-- SegmentNumGenerator::next_num() with the reservation reading the given file
contents (byte level). -/
def next_num_files (f1 f2 : Option (List (List Char))) (clock : Nat)
    (s : SNG) : Except Unit (Nat × SNG) :=
  match (if s.next_num_ = s.new_reserve_needed_
         then reserve_nums_files f1 f2 clock s else .ok s) with
  | .error e => .error e
  | .ok s1 => .ok (s1.next_num_, { s1 with next_num_ := s1.next_num_ + 1 })

/-- The SegmentNumGenerator constructor: `next_num_ = new_reserve_needed_ = 1`
(forcing a reservation on the first call), `reserved_` as supplied, and the two
files as found on disk. -/
def SNG.init (d1 d2 reserved : Nat) : SNG := ⟨1, 1, reserved, d1, d2⟩

/-- A sequence of next_num() calls, one clock value per call.  A call that
throws aborts the run (the exception is fatal to the session), so the values
produced up to that point are returned. -/
def SNGrun : SNG → List Nat → List Nat × SNG
  | s, [] => ([], s)
  | s, c :: cs =>
    match next_num c s with
    | .error _ => ([], s)
    | .ok (v, s1) =>
      let r := SNGrun s1 cs
      (v :: r.1, r.2)

/-! ## Connection: create_packet, handle_message, move_data -/

/-- The maximum message number, 2^48 - 1 (the literal in create_packet). -/
def msgnum_max : Nat := 281474976710655

/-- The observable content of an outgoing packet: the three header integers and
the payload handed to the AEAD encryption. -/
structure Packet where
  recv_segnum : Nat
  send_segnum : Nat
  msgnum : Nat
  body : List Nat
deriving DecidableEq

/-- The per-channel Connection state touched by create_packet and
handle_message. -/
structure ConnState where
  current_peer_segnum : Nat
  old_peer_segnum : Nat
  current_local_segnum : Nat
  old_local_segnum : Nat
  local_next_msgnum : Nat
  current_tracker : CMT
  old_tracker : CMT
  last_hello : Nat
deriving DecidableEq

/-- The state established by the Connection constructor, whose initial local
segment number is drawn from the shared generator. -/
def connInit (seg : Nat) : ConnState := ⟨0, 0, seg, 0, 1, cmtInit, cmtInit, 0⟩

/-- Connection::create_packet().  The shared segment number generator is
modelled by the stream `f` of values it hands out together with the index `gi`
of the next value; `segnumgen_->next_num()` returns `f gi` and advances the
index.  `peer_segnum` is the override argument (0 means "use
current_peer_segnum_").  Returns the packet, the new connection state and the
new generator index. -/
def create_packet (f : Nat → Nat) (gi : Nat) (st : ConnState) (data : List Nat)
    (peer_segnum : Nat) : Packet × ConnState × Nat :=
  let roll :=
    if msgnum_max < st.local_next_msgnum then
      ({ st with
          old_local_segnum := st.current_local_segnum,
          current_local_segnum := f gi, local_next_msgnum := 1 }, gi + 1)
    else (st, gi)
  let st1 := roll.1
  let recv := if peer_segnum = 0 then st1.current_peer_segnum else peer_segnum
  (⟨recv, st1.current_local_segnum, st1.local_next_msgnum, data⟩,
   { st1 with local_next_msgnum := st1.local_next_msgnum + 1 }, roll.2)

/-- An incoming datagram as handle_message sees it: the parsed header fields,
whether the datagram is at least 40 bytes (`wellFormed`), and the outcome of
the AEAD decryption, which is a pure function of the bytes (the same datagram
always decrypts the same way). -/
structure Msg where
  my_segnum : Nat
  peer_segnum : Nat
  msgnum : Nat
  wellFormed : Bool
  goodDecrypt : Bool
  plaintext : List Nat
deriving DecidableEq

/-- Observable effects of the Connection: a packet sent from the hello branch
of move_data, a data packet sent from move_data, an empty response packet sent
from handle_message, or plaintext written to the to-user FIFO. -/
inductive ConnOut where
  | helloPkt : Packet → ConnOut
  | dataPkt : Packet → ConnOut
  | respPkt : Packet → ConnOut
  | toUser : List Nat → ConnOut
deriving DecidableEq

/-- Connection::handle_message().  `now` is the clock value log_msgnum would
sample and `rtt` the current round-trip estimate.  Returns the new state, the
new generator index and the emitted effects in order. -/
def handle_message (f : Nat → Nat) (gi now rtt : Nat) (st : ConnState) (m : Msg) :
    ConnState × Nat × List ConnOut :=
  if !m.wellFormed then (st, gi, [])
  else if m.peer_segnum = 0 then (st, gi, [])
  else if ¬ (m.my_segnum ≠ 0 ∧
      (m.my_segnum = st.current_local_segnum ∨ m.my_segnum = st.old_local_segnum)) then
    if m.peer_segnum ≤ st.current_peer_segnum then (st, gi, [])
    else if m.goodDecrypt then
      let r := create_packet f gi st [] m.peer_segnum
      (r.2.1, r.2.2, [ConnOut.respPkt r.1])
    else (st, gi, [])
  else if m.peer_segnum = st.current_peer_segnum ∨ m.peer_segnum = st.old_peer_segnum then
    if m.peer_segnum = st.current_peer_segnum then
      if have_seen_msgnum st.current_tracker m.msgnum then (st, gi, [])
      else if m.goodDecrypt then
        ({ st with current_tracker := log_msgnum st.current_tracker m.msgnum now rtt },
         gi, [ConnOut.toUser m.plaintext])
      else (st, gi, [])
    else
      if have_seen_msgnum st.old_tracker m.msgnum then (st, gi, [])
      else if m.goodDecrypt then
        ({ st with old_tracker := log_msgnum st.old_tracker m.msgnum now rtt },
         gi, [ConnOut.toUser m.plaintext])
      else (st, gi, [])
  else if st.current_peer_segnum < m.peer_segnum then
    if m.goodDecrypt then
      ({ st with
          old_peer_segnum := st.current_peer_segnum,
          old_tracker := st.current_tracker,
          current_peer_segnum := m.peer_segnum,
          current_tracker := log_msgnum (CMT.reset st.current_tracker) m.msgnum now rtt },
       gi, [ConnOut.toUser m.plaintext])
    else (st, gi, [])
  else (st, gi, [])

/-- A Connection together with its incoming message queue and the byte stream
pending on the from-user FIFO. -/
structure ConnEnv where
  cs : ConnState
  queue : List Msg
  fifoFrom : List Nat
deriving DecidableEq

/-- One pass of the move_data loop: dequeue and handle at most one message,
then attempt one outbound send (a hello when the peer segment number is still
unknown, a data packet otherwise).  Returns the new environment, generator
index, effects, the updated `hello_packet_sent` flag and the `no_more_data`
flag the loop condition consults. -/
def move_data_pass (f : Nat → Nat) (now rtt maxPkt : Nat) (helloSent : Bool)
    (c : ConnEnv) (gi : Nat) : ConnEnv × Nat × List ConnOut × Bool × Bool :=
  let step :=
    match c.queue with
    | [] => (c, gi, ([] : List ConnOut), false)
    | m :: rest =>
      let r := handle_message f gi now rtt c.cs m
      ({ c with cs := r.1, queue := rest }, r.2.1, r.2.2, true)
  let c1 := step.1
  let gi1 := step.2.1
  let outs1 := step.2.2.1
  let didMsg := step.2.2.2
  if c1.cs.current_peer_segnum = 0 then
    if !helloSent && !c1.fifoFrom.isEmpty then
      let r := create_packet f gi1 c1.cs [] 0
      ({ c1 with cs := { r.2.1 with last_hello := now } }, r.2.2,
       outs1 ++ [ConnOut.helloPkt r.1], true, !didMsg)
    else (c1, gi1, outs1, helloSent, !didMsg)
  else
    let chunk := c1.fifoFrom.take (maxPkt - 40)
    if !chunk.isEmpty then
      let r := create_packet f gi1 c1.cs chunk 0
      ({ c1 with cs := r.2.1, fifoFrom := c1.fifoFrom.drop (maxPkt - 40) }, r.2.2,
       outs1 ++ [ConnOut.dataPkt r.1], helloSent, false)
    else (c1, gi1, outs1, helloSent, !didMsg)

/-- The loop of Connection::move_data(): run passes while the budget lasts and
the previous pass moved data (the hello branch does not count as moved data,
exactly as in the source). -/
def move_data_loop (f : Nat → Nat) (now rtt maxPkt : Nat) :
    Nat → Bool → ConnEnv → Nat → ConnEnv × Nat × List ConnOut
  | 0, _, c, gi => (c, gi, [])
  | fuel + 1, helloSent, c, gi =>
    let p := move_data_pass f now rtt maxPkt helloSent c gi
    if p.2.2.2.2 then (p.1, p.2.1, p.2.2.1)
    else
      let r := move_data_loop f now rtt maxPkt fuel p.2.2.2.1 p.1 p.2.1
      (r.1, r.2.1, p.2.2.1 ++ r.2.2)

/-- Connection::move_data(budget): the loop starts with `hello_packet_sent`
false and `no_more_data` false, so the first pass always runs when the budget
is positive. -/
def move_data (f : Nat → Nat) (now rtt maxPkt : Nat) (c : ConnEnv) (gi budget : Nat) :
    ConnEnv × Nat × List ConnOut :=
  move_data_loop f now rtt maxPkt budget false c gi

/-- Recognises effects emitted by the hello branch of move_data. -/
def isHello : ConnOut → Bool
  | ConnOut.helloPkt _ => true
  | _ => false

/-- Number of hello packets among a list of effects. -/
def countHello (os : List ConnOut) : Nat := (os.filter isHello).length

/-! ## The program history of emitted packets (for segment number / message
number uniqueness) -/

/-- Events that touch the emission state: creating a new Connection (which
draws its initial local segment number from the shared generator) or invoking
create_packet on the `j`-th existing Connection. -/
inductive PEvent where
  | newConn : PEvent
  | emit : Nat → List Nat → Nat → PEvent

/-- Global emission state: the generator index, the Connections and the
history of `(sender segment number, message number)` pairs carried by every
packet emitted so far. -/
structure ProgState where
  gen_idx : Nat
  conns : List ConnState
  hist : List (Nat × Nat)

/-- One program step. -/
def prog_step (f : Nat → Nat) (st : ProgState) : PEvent → ProgState
  | .newConn =>
    ⟨st.gen_idx + 1, st.conns ++ [connInit (f st.gen_idx)], st.hist⟩
  | .emit j data ov =>
    match st.conns[j]? with
    | none => st
    | some cs =>
      let r := create_packet f st.gen_idx cs data ov
      ⟨r.2.2, st.conns.set j r.2.1, st.hist ++ [(r.1.send_segnum, r.1.msgnum)]⟩

/-- A whole program run from the empty initial state. -/
def prog_run (f : Nat → Nat) (evs : List PEvent) : ProgState :=
  evs.foldl (prog_step f) ⟨0, [], []⟩

/-! ## A concrete run of the replay tracker that scrambles retained records

Logging 768, then 1024, then 600, then 1280 (with the round-trip estimate at
100 ms and the shown timestamps) drives the tracker through: grow to 3 blocks,
slide to `current_block_ = 1`, and then a grow-and-copy reallocation in which
`current_block_ - num_blocks_to_copy` = `1 - 3` underflows the 32-bit unsigned
subtraction; `(2^32 - 2) % 3 = 2` instead of the mathematically intended
`(1 - 3) mod 3 = 1`, so the copy starts from the wrong ring block. -/

/-- Tracker after logging 768 at t = 1000000 (rtt 100): grown to 3 blocks,
window `[256, 1024)`. -/
def cmtTrace1 : CMT := log_msgnum cmtInit 768 1000000 100

/-- Tracker after further logging 1024 at t = 2000000: slides one block,
`current_block_ = 1`, window `[512, 1280)`. -/
def cmtTrace2 : CMT := log_msgnum cmtTrace1 1024 2000000 100

/-- Tracker after further logging 600 at t = 2000050 (an in-window log into the
base block, which is now partial and recently written). -/
def cmtTrace3 : CMT := log_msgnum cmtTrace2 600 2000050 100

/-- Tracker after further logging 1280 at t = 2000100: this triggers the
grow-and-copy reallocation with the underflowing cursor computation. -/
def cmtTrace4 : CMT := log_msgnum cmtTrace3 1280 2000100 100

/-- C6: the claim is that a logged message number stays seen until reset.  The
code violates it: in the run cmtTrace1..4 (no reset anywhere), 1024 is logged
(and reported seen immediately afterwards), yet after the reallocation
triggered by logging 1280, have_seen_msgnum(1024) returns false. -/
theorem c6_logged_number_reported_unseen :
    have_seen_msgnum cmtTrace2 1024 = true ∧
    have_seen_msgnum cmtTrace4 1024 = false := by decide

/-- C4: the claim is the precision contract: for every m at or above
msgnum_bound, seen(m) iff logged(m).  After the run cmtTrace1..4 the
spec-defined bound is 512 (highest = 1280, x = 1536, y = 0, and z = 600, the
smallest message number logged within rtt of the moment 1280 was logged, so
the bound is the greatest multiple of 256 below 600).  The code violates the
contract both ways above that bound: 600 was logged but is reported unseen,
and 1112 was never logged but is reported seen. -/
theorem c4_precision_contract_violated :
    have_seen_msgnum cmtTrace4 600 = false ∧
    have_seen_msgnum cmtTrace4 1112 = true ∧
    cmtTrace4.base_msgnum = 512 := by decide

/-- C7: the claim describes grow-and-copy: with k = 3 < max_blocks and the
block holding 600 partial and written within one RTT, logging 1280 must copy
the retained blocks so that the first retained block lands at ring index 0,
preserving the seen-bits of retained message numbers.  The code grows to 4
blocks and advances the base by (d - extra) * block_size = 0 as claimed, but
the underflowing cursor computation starts the copy at ring index 2 instead of
1, so the retained seen-bit of 600 is not preserved. -/
theorem c7_grow_and_copy_misplaces_blocks :
    cmtTrace3.block_records.length = 3 ∧
    cmtTrace3.current_block = 1 ∧
    how_many_extra_blocks cmtTrace3 1 2000100 100 = 1 ∧
    have_seen_msgnum cmtTrace3 600 = true ∧
    (reallocate_records cmtTrace3 1 1).block_records.length = 4 ∧
    (reallocate_records cmtTrace3 1 1).base_msgnum = 512 ∧
    have_seen_msgnum (reallocate_records cmtTrace3 1 1) 600 = false := by decide

/-! ## The same bug surfacing through Connection::handle_message -/

/-- A stand-in generator stream for concrete evaluations. -/
def fStub : Nat → Nat := fun n => 1000 + n

/-- A well-formed datagram from the confirmed peer segment number 5, addressed
to our current local segment number 100, with a valid AEAD tag and plaintext
`[9]`. -/
def rxMsg (n : Nat) : Msg := ⟨100, 5, n, true, true, [9]⟩

/-- A Connection that has confirmed peer segment number 5 and uses local
segment number 100. -/
def hmS0 : ConnState := ⟨5, 0, 100, 0, 1, cmtInit, cmtInit, 0⟩

/-- Connection state after accepting the packet with message number 768. -/
def hmS1 : ConnState := (handle_message fStub 0 1000000 100 hmS0 (rxMsg 768)).1

/-- Connection state after further accepting message number 1024. -/
def hmS2 : ConnState := (handle_message fStub 0 2000000 100 hmS1 (rxMsg 1024)).1

/-- Connection state after further accepting message number 600. -/
def hmS3 : ConnState := (handle_message fStub 0 2000050 100 hmS2 (rxMsg 600)).1

/-- Connection state after further accepting message number 1280 (this log
runs the scrambling reallocation inside the current replay tracker). -/
def hmS4 : ConnState := (handle_message fStub 0 2000100 100 hmS3 (rxMsg 1280)).1

/-- C5: the claim includes that re-delivering byte-for-byte a previously
accepted packet produces no inward write.  The code violates it: the packet
with message number 1024 is accepted (first conjunct: its plaintext is written
to the to-user FIFO), yet after the packets 600 and 1280 are also accepted,
re-delivering the identical packet writes its plaintext to the to-user FIFO a
second time (second conjunct), because the replay tracker lost the record of
1024 in the reallocation. -/
theorem c5_replayed_packet_accepted_again :
    (handle_message fStub 0 2000000 100 hmS1 (rxMsg 1024)).2.2 = [ConnOut.toUser [9]] ∧
    (handle_message fStub 0 2000200 100 hmS4 (rxMsg 1024)).2.2 = [ConnOut.toUser [9]] := by decide

/-! ## Counterexample for the message number rollover threshold -/

/-- A Connection whose local_next_msgnum is exactly 2^48 - 1. -/
def c9State : ConnState := ⟨3, 0, 5, 0, msgnum_max, cmtInit, cmtInit, 0⟩

/-- C9 counterexample: the claim says that with local_next_msgnum = 2^48 - 1
the next emission requests a fresh segment number, emits message number 1 and
moves the current local segnum to old_local_segnum.  The code's rollover
condition is the strict `local_next_msgnum_ > 2^48 - 1`, so at exactly
2^48 - 1 the packet is emitted with message number 2^48 - 1 under the
unchanged segment number 5, the generator is not consulted (the index stays
0), and old_local_segnum stays 0. -/
theorem c9_counterexample :
    c9State.local_next_msgnum = 281474976710655 ∧
    (create_packet fStub 0 c9State [] 0).1.msgnum = 281474976710655 ∧
    (create_packet fStub 0 c9State [] 0).1.send_segnum = 5 ∧
    (create_packet fStub 0 c9State [] 0).2.2 = 0 ∧
    (create_packet fStub 0 c9State [] 0).2.1.old_local_segnum = 0 ∧
    (create_packet fStub 0 c9State [] 0).2.1.current_local_segnum = 5 := by decide

/-! ## Counterexample for "exactly one hello per move_data invocation" -/

/-- A valid packet from a new peer segment number 9, addressed to our current
local segment number, queued before move_data runs. -/
def c10Promote : Msg := ⟨100, 9, 1, true, true, [1]⟩

/-- A closed Connection (peer segnum unknown) with one pending outward byte
and the promoting packet already in its incoming queue. -/
def c10Env : ConnEnv := ⟨connInit 100, [c10Promote], [7]⟩

/-- C10 counterexample: the claim says a move_data call with positive budget on
a Connection with current_peer_segnum = 0 and pending outward bytes always
sends exactly one hello.  Here the first loop pass handles the queued packet,
which confirms peer segnum 9 before the outbound step of the same pass, so the
invocation sends no hello at all (it sends a data packet instead). -/
theorem c10_counterexample :
    c10Env.cs.current_peer_segnum = 0 ∧
    c10Env.fifoFrom ≠ [] ∧
    countHello (move_data fStub 50 100 1000 c10Env 0 2).2.2 = 0 := by decide

/-! ## Counterexample for tolerating an over-large stored segment number -/

/-- The line "5", a valid stored segment number. -/
def fileLine5 : List Char := "5".data

/-- The line "281474976710655", i.e. 2^48 - 1: at the limit that
get_saved_segnum refuses. -/
def fileLineBig : List Char := "281474976710655".data

/-- C3 counterexample: the claim lists "a stored value ≥ 2^48 - 1" among the
single-file corruptions after which next_num() still succeeds using the other,
valid file.  The code instead deliberately throws for that corruption: with
_FIRST valid (value 5) and _SECOND holding 2^48 - 1, next_num() fails even
though the valid file alone would allow a reservation. -/
theorem c3_counterexample :
    get_saved_segnum (some [fileLine5, fileLine5]) = .ok 5 ∧
    next_num_files (some [fileLine5, fileLine5]) (some [fileLineBig, fileLineBig]) 7
      (SNG.init 0 0 3) = .error () := by decide

/-! ## Frame properties of create_packet -/

/-- create_packet never changes the peer segment numbers or the replay
trackers. -/
theorem create_packet_peer_frame (f : Nat → Nat) (gi : Nat) (st : ConnState)
    (data : List Nat) (ov : Nat) :
    (create_packet f gi st data ov).2.1.current_peer_segnum = st.current_peer_segnum ∧
    (create_packet f gi st data ov).2.1.old_peer_segnum = st.old_peer_segnum ∧
    (create_packet f gi st data ov).2.1.current_tracker = st.current_tracker ∧
    (create_packet f gi st data ov).2.1.old_tracker = st.old_tracker := by
  unfold create_packet
  split <;> simp

/-- With a non-zero override, the packet's receiver segment number is the
override, and the payload is the data supplied. -/
theorem create_packet_recv_override (f : Nat → Nat) (gi : Nat) (st : ConnState)
    (data : List Nat) (ov : Nat) (h : ov ≠ 0) :
    (create_packet f gi st data ov).1.recv_segnum = ov ∧
    (create_packet f gi st data ov).1.body = data := by
  unfold create_packet
  split <;> simp [h]

/-- C9 (amended): the rollover threshold in the code is strict: only when
local_next_msgnum exceeds 2^48 - 1 (it is 2^48 after the packet with message
number 2^48 - 1 is emitted) does the next emission request a fresh segment
number from the generator, store the previous current_local_segnum into
old_local_segnum, emit under message number 1 and leave local_next_msgnum at
2. -/
theorem c9_amended (f : Nat → Nat) (gi : Nat) (st : ConnState) (data : List Nat)
    (ov : Nat) (h : msgnum_max < st.local_next_msgnum) :
    (create_packet f gi st data ov).1.msgnum = 1 ∧
    (create_packet f gi st data ov).1.send_segnum = f gi ∧
    (create_packet f gi st data ov).2.1.old_local_segnum = st.current_local_segnum ∧
    (create_packet f gi st data ov).2.1.current_local_segnum = f gi ∧
    (create_packet f gi st data ov).2.1.local_next_msgnum = 2 ∧
    (create_packet f gi st data ov).2.2 = gi + 1 := by
  unfold create_packet
  simp [if_pos h]

/-- The Connection of the C9 witness, with local_next_msgnum = 2^48. -/
def c9WitState : ConnState := ⟨3, 0, 5, 0, 281474976710656, cmtInit, cmtInit, 0⟩

/-- Witness for c9_amended at a concrete state whose local_next_msgnum is
2^48. -/
theorem c9_amended_witness :
    msgnum_max < c9WitState.local_next_msgnum ∧
    ((create_packet fStub 0 c9WitState [] 0).1.msgnum = 1 ∧
     (create_packet fStub 0 c9WitState [] 0).1.send_segnum = fStub 0 ∧
     (create_packet fStub 0 c9WitState [] 0).2.1.old_local_segnum = c9WitState.current_local_segnum ∧
     (create_packet fStub 0 c9WitState [] 0).2.1.current_local_segnum = fStub 0 ∧
     (create_packet fStub 0 c9WitState [] 0).2.1.local_next_msgnum = 2 ∧
     (create_packet fStub 0 c9WitState [] 0).2.2 = 0 + 1) :=
  ⟨by decide, c9_amended fStub 0 c9WitState [] 0 (by decide)⟩

/-! ## C8: the unconfirmed branch of handle_message -/

/-- C8: when a well-formed packet carries a receiver segment number that is 0
or matches neither current_local_segnum nor old_local_segnum, then: if its
sender segment number p is at most current_peer_segnum the packet is dropped
with no state change and no output; if p is greater and the packet decrypts
with a valid tag, exactly one empty response packet is emitted with p as the
receiver-segnum override, while the peer segment numbers and both replay
trackers are unchanged (p is not confirmed). -/
theorem c8_theorem (f : Nat → Nat) (gi now rtt : Nat) (st : ConnState) (m : Msg)
    (hwf : m.wellFormed = true)
    (hr : m.my_segnum = 0 ∨
      (m.my_segnum ≠ st.current_local_segnum ∧ m.my_segnum ≠ st.old_local_segnum)) :
    (m.peer_segnum ≤ st.current_peer_segnum →
      handle_message f gi now rtt st m = (st, gi, [])) ∧
    (st.current_peer_segnum < m.peer_segnum → m.goodDecrypt = true →
      (handle_message f gi now rtt st m).2.2 =
        [ConnOut.respPkt (create_packet f gi st [] m.peer_segnum).1] ∧
      (create_packet f gi st [] m.peer_segnum).1.recv_segnum = m.peer_segnum ∧
      (create_packet f gi st [] m.peer_segnum).1.body = [] ∧
      (handle_message f gi now rtt st m).1.current_peer_segnum = st.current_peer_segnum ∧
      (handle_message f gi now rtt st m).1.old_peer_segnum = st.old_peer_segnum ∧
      (handle_message f gi now rtt st m).1.current_tracker = st.current_tracker ∧
      (handle_message f gi now rtt st m).1.old_tracker = st.old_tracker) := by
  have hnotr : ¬ (m.my_segnum ≠ 0 ∧
      (m.my_segnum = st.current_local_segnum ∨ m.my_segnum = st.old_local_segnum)) := by
    rcases hr with h0 | ⟨h1, h2⟩
    · simp [h0]
    · rintro ⟨-, hc | hc⟩
      · exact h1 hc
      · exact h2 hc
  constructor
  · intro hle
    by_cases hp0 : m.peer_segnum = 0
    · simp [handle_message, hwf, hp0]
    · simp [handle_message, hwf, hp0, hnotr, hle]
  · intro hgt hgd
    have hp0 : m.peer_segnum ≠ 0 := by omega
    have hnle : ¬ m.peer_segnum ≤ st.current_peer_segnum := by omega
    have hframe := create_packet_peer_frame f gi st [] m.peer_segnum
    have hrecv := create_packet_recv_override f gi st [] m.peer_segnum hp0
    simp only [handle_message, hwf, Bool.not_true, Bool.false_eq_true, if_false,
      if_neg hp0, if_pos hnotr, if_neg hnle, hgd, if_pos rfl, if_true]
    exact ⟨trivial, hrecv.1, hrecv.2, hframe.1, hframe.2.1, hframe.2.2.1, hframe.2.2.2⟩

/-- A concrete state and packet exercising c8_theorem's response branch. -/
def c8WitMsg : Msg := ⟨55, 9, 1, true, true, [2]⟩

/-- A concrete Connection state for the c8 witness. -/
def c8WitState : ConnState := ⟨3, 0, 100, 0, 1, cmtInit, cmtInit, 0⟩

/-- Witness for c8_theorem at a concrete input with a stale receiver segnum and
a sender segnum above the confirmed one. -/
theorem c8_theorem_witness :
    c8WitMsg.wellFormed = true ∧
    (c8WitMsg.my_segnum = 0 ∨
      (c8WitMsg.my_segnum ≠ c8WitState.current_local_segnum ∧
       c8WitMsg.my_segnum ≠ c8WitState.old_local_segnum)) ∧
    ((c8WitMsg.peer_segnum ≤ c8WitState.current_peer_segnum →
        handle_message fStub 0 7 100 c8WitState c8WitMsg = (c8WitState, 0, [])) ∧
     (c8WitState.current_peer_segnum < c8WitMsg.peer_segnum → c8WitMsg.goodDecrypt = true →
        (handle_message fStub 0 7 100 c8WitState c8WitMsg).2.2 =
          [ConnOut.respPkt (create_packet fStub 0 c8WitState [] c8WitMsg.peer_segnum).1] ∧
        (create_packet fStub 0 c8WitState [] c8WitMsg.peer_segnum).1.recv_segnum =
          c8WitMsg.peer_segnum ∧
        (create_packet fStub 0 c8WitState [] c8WitMsg.peer_segnum).1.body = [] ∧
        (handle_message fStub 0 7 100 c8WitState c8WitMsg).1.current_peer_segnum =
          c8WitState.current_peer_segnum ∧
        (handle_message fStub 0 7 100 c8WitState c8WitMsg).1.old_peer_segnum =
          c8WitState.old_peer_segnum ∧
        (handle_message fStub 0 7 100 c8WitState c8WitMsg).1.current_tracker =
          c8WitState.current_tracker ∧
        (handle_message fStub 0 7 100 c8WitState c8WitMsg).1.old_tracker =
          c8WitState.old_tracker)) :=
  ⟨by decide, by decide,
   c8_theorem fStub 0 7 100 c8WitState c8WitMsg (by decide) (by decide)⟩

/-! ## C3: resilience of the reservation to single-file corruption -/

/-- The corruption shapes of a stored segment number file that
get_saved_segnum treats as "missing or corrupt" (result 0): a file that cannot
be opened, fewer than two lines (this covers the single-line format), two
mismatched lines, an extra non-empty line, or a non-digit character in the
first line (this covers bad digits and leading or trailing space, since a
space is not a digit).  The remaining listed corruption - a stored value of
2^48 - 1 or more - is deliberately NOT here: get_saved_segnum throws for it. -/
inductive BenignCorrupt : Option (List (List Char)) → Prop
  | missing : BenignCorrupt none
  | noLines : BenignCorrupt (some [])
  | oneLine (l : List Char) : BenignCorrupt (some [l])
  | mismatch (l1 l2 : List Char) (rest : List (List Char)) :
      l1 ≠ l2 → BenignCorrupt (some (l1 :: l2 :: rest))
  | extraLine (l1 l2 : List Char) (rest : List (List Char)) (l : List Char) :
      l ∈ rest → l ≠ [] → BenignCorrupt (some (l1 :: l2 :: rest))
  | badChar (l1 l2 : List Char) (rest : List (List Char)) (c : Char) :
      c ∈ l1 → is_digit_char c = false → BenignCorrupt (some (l1 :: l2 :: rest))

/-- A well-formed stored segment number file holding the valid segment number
`v`: two identical all-digit lines followed only by empty lines, with
1 ≤ v < 2^48 - 1. -/
def ValidFile (fl : Option (List (List Char))) (v : Nat) : Prop :=
  ∃ l rest, fl = some (l :: l :: rest) ∧ (∀ x ∈ rest, x = ([] : List Char)) ∧
    l ≠ [] ∧ l.all is_digit_char = true ∧ dec_value l = v ∧ 1 ≤ v ∧ v < segnum_max

/-- A benignly corrupted file parses to the in-band error value 0. -/
theorem get_saved_segnum_benign {fl : Option (List (List Char))}
    (h : BenignCorrupt fl) : get_saved_segnum fl = .ok 0 := by
  cases h with
  | missing => rfl
  | noLines => rfl
  | oneLine l => rfl
  | mismatch l1 l2 rest hne => simp [get_saved_segnum, hne]
  | extraLine l1 l2 rest l hmem hne =>
    by_cases he : l1 = l2
    · have hany : rest.any (fun x => !x.isEmpty) = true := by
        refine List.any_eq_true.2 ⟨l, hmem, ?_⟩
        simpa using hne
      simp [get_saved_segnum, he, hany]
    · simp [get_saved_segnum, he]
  | badChar l1 l2 rest c hmem hbad =>
    have hdig : l1.all is_digit_char = false := by
      refine Bool.eq_false_iff.2 (fun hall => ?_)
      have h2 := List.all_eq_true.1 hall c hmem
      rw [hbad] at h2
      exact Bool.false_ne_true h2
    simp only [get_saved_segnum]
    split_ifs with h1 h2 h3
    · rfl
    · rfl
    · rfl
    · rw [hdig] at h3
      exact absurd rfl h3

/-- A valid file parses to its stored value. -/
theorem get_saved_segnum_valid {fl : Option (List (List Char))} {v : Nat}
    (h : ValidFile fl v) : get_saved_segnum fl = .ok v := by
  obtain ⟨l, rest, rfl, hrest, hne, hdig, hval, hv1, hvmax⟩ := h
  have hany : rest.any (fun x => !x.isEmpty) = false := by
    refine List.any_eq_false.2 ?_
    intro x hx
    simp [hrest x hx]
  have hemp : l.isEmpty = false := by
    cases l with
    | nil => exact absurd rfl hne
    | cons a as => rfl
  have hltv : v < wrap64 := by
    have : segnum_max < wrap64 := by decide
    omega
  simp [get_saved_segnum, hany, hdig, stoull_model, hemp, hval, hltv, hvmax]

/-- C3 (amended): when exactly one of the two files is corrupted in one of the
benign listed ways (bad digits, leading or trailing space, mismatched lines, an
extra non-empty line, single-line format, or absence) while the other is valid
with stored value v, a reservation-requiring next_num() call still returns a
value of at least v + 1; when both files are corrupt or absent in those ways it
fails with a persistence error.  A stored value of 2^48 - 1 or more is instead
a fatal error of its own even when the other file is valid (see
c3_counterexample).  The bound hypotheses say the reservation and the clock do
not overrun the 2^48 - 1 ceiling, as on any healthy installation. -/
theorem c3_amended (f1 f2 : Option (List (List Char))) (clock v : Nat) (s : SNG)
    (hres : s.next_num_ = s.new_reserve_needed_)
    (hclk : clock ≤ segnum_max)
    (hcr : clock + s.reserved_ ≤ segnum_max)
    (hvr : v + 1 + s.reserved_ ≤ segnum_max) :
    (BenignCorrupt f1 → ValidFile f2 v →
      ∃ n s1, next_num_files f1 f2 clock s = .ok (n, s1) ∧ v + 1 ≤ n) ∧
    (BenignCorrupt f2 → ValidFile f1 v →
      ∃ n s1, next_num_files f1 f2 clock s = .ok (n, s1) ∧ v + 1 ≤ n) ∧
    (BenignCorrupt f1 → BenignCorrupt f2 →
      next_num_files f1 f2 clock s = .error ()) := by
  have hnclk : ¬ segnum_max < clock := Nat.not_lt.2 hclk
  have hres' : next_num_files f1 f2 clock s =
      match reserve_nums_files f1 f2 clock s with
      | .error e => .error e
      | .ok s1 => .ok (s1.next_num_, { s1 with next_num_ := s1.next_num_ + 1 }) := by
    simp [next_num_files, hres]
  have hnlim : ∀ w : Nat, w + 1 + s.reserved_ ≤ segnum_max →
      ¬ segnum_max < max (w + 1) clock + s.reserved_ := by
    intro w hw
    rcases Nat.le_total (w + 1) clock with hle | hle
    · rw [Nat.max_eq_right hle]; omega
    · rw [Nat.max_eq_left hle]; omega
  refine ⟨?_, ?_, ?_⟩
  · intro hc hv
    have hv1 : 1 ≤ v := by
      obtain ⟨l, rest, hfl, hrest, hne, hdig, hval, hv1, hvmax⟩ := hv
      exact hv1
    have hv0 : ¬ v = 0 := by omega
    have hrn : reserve_nums_files f1 f2 clock s = reserve_from 0 v clock s := by
      simp [reserve_nums_files, get_saved_segnum_benign hc, get_saved_segnum_valid hv]
    have hrf : reserve_from 0 v clock s =
        .ok { s with
                next_num_ := max (v + 1) clock,
                new_reserve_needed_ := max (v + 1) clock + s.reserved_,
                disk_first := max (v + 1) clock + s.reserved_ - 1,
                disk_second := max (v + 1) clock + s.reserved_ - 1 } := by
      simp [reserve_from, Nat.zero_max, hv0, hnclk, hnlim v hvr]
    refine ⟨max (v + 1) clock,
      { s with
          next_num_ := max (v + 1) clock + 1,
          new_reserve_needed_ := max (v + 1) clock + s.reserved_,
          disk_first := max (v + 1) clock + s.reserved_ - 1,
          disk_second := max (v + 1) clock + s.reserved_ - 1 }, ?_, Nat.le_max_left _ _⟩
    rw [hres', hrn, hrf]
  · intro hc hv
    have hv1 : 1 ≤ v := by
      obtain ⟨l, rest, hfl, hrest, hne, hdig, hval, hv1, hvmax⟩ := hv
      exact hv1
    have hv0 : ¬ v = 0 := by omega
    have hrn : reserve_nums_files f1 f2 clock s = reserve_from v 0 clock s := by
      simp [reserve_nums_files, get_saved_segnum_benign hc, get_saved_segnum_valid hv]
    have hrf : reserve_from v 0 clock s =
        .ok { s with
                next_num_ := max (v + 1) clock,
                new_reserve_needed_ := max (v + 1) clock + s.reserved_,
                disk_first := max (v + 1) clock + s.reserved_ - 1,
                disk_second := max (v + 1) clock + s.reserved_ - 1 } := by
      simp [reserve_from, Nat.max_zero, hv0, hnclk, hnlim v hvr]
    refine ⟨max (v + 1) clock,
      { s with
          next_num_ := max (v + 1) clock + 1,
          new_reserve_needed_ := max (v + 1) clock + s.reserved_,
          disk_first := max (v + 1) clock + s.reserved_ - 1,
          disk_second := max (v + 1) clock + s.reserved_ - 1 }, ?_, Nat.le_max_left _ _⟩
    rw [hres', hrn, hrf]
  · intro h1 h2
    simp [next_num_files, hres, reserve_nums_files,
      get_saved_segnum_benign h1, get_saved_segnum_benign h2, reserve_from]

/-- C3 witness: the valid file used in c3_amended_witness. -/
def c3WitValid : Option (List (List Char)) := some ["7".data, "7".data]

/-- Witness for c3_amended: an absent first file, a valid second file storing
7, clock 5, reservation size 3. -/
theorem c3_amended_witness :
    (SNG.init 0 0 3).next_num_ = (SNG.init 0 0 3).new_reserve_needed_ ∧
    ((BenignCorrupt none → ValidFile c3WitValid 7 →
        ∃ n s1, next_num_files none c3WitValid 5 (SNG.init 0 0 3) = .ok (n, s1) ∧ 7 + 1 ≤ n) ∧
     (BenignCorrupt c3WitValid → ValidFile none 7 →
        ∃ n s1, next_num_files none c3WitValid 5 (SNG.init 0 0 3) = .ok (n, s1) ∧ 7 + 1 ≤ n) ∧
     (BenignCorrupt none → BenignCorrupt c3WitValid →
        next_num_files none c3WitValid 5 (SNG.init 0 0 3) = .error ())) :=
  ⟨rfl, c3_amended none c3WitValid 5 7 (SNG.init 0 0 3) rfl (by decide) (by decide) (by decide)⟩

/-! ## C10: hellos per move_data invocation -/

/-- handle_message never decreases the confirmed peer segment number. -/
theorem handle_message_peer_mono (f : Nat → Nat) (gi now rtt : Nat)
    (st : ConnState) (m : Msg) :
    st.current_peer_segnum ≤ (handle_message f gi now rtt st m).1.current_peer_segnum := by
  unfold handle_message
  repeat' split
  all_goals first
    | exact Nat.le_refl _
    | exact Nat.le_of_lt (by assumption)
    | exact Nat.le_of_eq ((create_packet_peer_frame f gi st [] m.peer_segnum).1.symm)

/-- handle_message emits no hello packets (its only send is the empty response
packet of the unconfirmed branch). -/
theorem handle_message_no_hello (f : Nat → Nat) (gi now rtt : Nat)
    (st : ConnState) (m : Msg) :
    countHello (handle_message f gi now rtt st m).2.2 = 0 := by
  unfold handle_message
  repeat' split
  all_goals simp [countHello, isHello]

/-- countHello distributes over append. -/
theorem countHello_append (a b : List ConnOut) :
    countHello (a ++ b) = countHello a + countHello b := by
  simp [countHello, List.filter_append]

/-- A pass of the move_data loop on a Connection with a confirmed peer segment
number emits no hello and leaves the peer segment number confirmed. -/
theorem move_data_pass_no_hello_of_open (f : Nat → Nat) (now rtt maxPkt : Nat)
    (hs : Bool) (c : ConnEnv) (gi : Nat) (hcur : c.cs.current_peer_segnum ≠ 0) :
    countHello (move_data_pass f now rtt maxPkt hs c gi).2.2.1 = 0 ∧
    (move_data_pass f now rtt maxPkt hs c gi).1.cs.current_peer_segnum ≠ 0 := by
  obtain ⟨cs, q, fifo⟩ := c
  cases q with
  | nil =>
    unfold move_data_pass
    dsimp only
    rw [if_neg hcur]
    split_ifs with h2
    · refine ⟨by simp [countHello, isHello], ?_⟩
      have hfr := (create_packet_peer_frame f gi cs (fifo.take (maxPkt - 40)) 0).1
      simpa [hfr] using hcur
    · exact ⟨rfl, hcur⟩
  | cons m rest =>
    unfold move_data_pass
    dsimp only
    have hmono := handle_message_peer_mono f gi now rtt cs m
    have hmh := handle_message_no_hello f gi now rtt cs m
    have hcur1 : (handle_message f gi now rtt cs m).1.current_peer_segnum ≠ 0 := by
      simp only [ConnEnv.cs] at hcur
      omega
    rw [if_neg hcur1]
    split_ifs with h2
    · refine ⟨?_, ?_⟩
      · rw [countHello_append, hmh]
        simp [countHello, isHello]
      · have hfr := (create_packet_peer_frame f (handle_message f gi now rtt cs m).2.1
          (handle_message f gi now rtt cs m).1 (fifo.take (maxPkt - 40)) 0).1
        simpa [hfr] using hcur1
    · exact ⟨hmh, hcur1⟩

/-- A pass of the move_data loop with no bytes pending on the from-user FIFO
emits no hello and leaves the FIFO empty. -/
theorem move_data_pass_no_hello_of_empty_fifo (f : Nat → Nat) (now rtt maxPkt : Nat)
    (hs : Bool) (c : ConnEnv) (gi : Nat) (hf : c.fifoFrom = []) :
    countHello (move_data_pass f now rtt maxPkt hs c gi).2.2.1 = 0 ∧
    (move_data_pass f now rtt maxPkt hs c gi).1.fifoFrom = [] := by
  obtain ⟨cs, q, fifo⟩ := c
  simp only [ConnEnv.fifoFrom] at hf
  subst hf
  cases q with
  | nil =>
    unfold move_data_pass
    dsimp only
    split_ifs with h1 h2 h3
    · simp at h2
    · exact ⟨by simp [countHello], rfl⟩
    · simp at h3
    · exact ⟨by simp [countHello], rfl⟩
  | cons m rest =>
    unfold move_data_pass
    dsimp only
    have hmh := handle_message_no_hello f gi now rtt cs m
    split_ifs with h1 h2 h3
    · simp at h2
    · exact ⟨hmh, rfl⟩
    · simp at h3
    · exact ⟨hmh, rfl⟩

/-- The move_data loop on a Connection with a confirmed peer segment number
emits no hello, whatever the budget, the flag and the queue. -/
theorem move_data_loop_no_hello_of_open (f : Nat → Nat) (now rtt maxPkt : Nat) :
    ∀ (fuel : Nat) (hs : Bool) (c : ConnEnv) (gi : Nat),
      c.cs.current_peer_segnum ≠ 0 →
      countHello (move_data_loop f now rtt maxPkt fuel hs c gi).2.2 = 0 := by
  intro fuel
  induction fuel with
  | zero => intro hs c gi hcur; simp [move_data_loop, countHello]
  | succ n ih =>
    intro hs c gi hcur
    have hp := move_data_pass_no_hello_of_open f now rtt maxPkt hs c gi hcur
    unfold move_data_loop
    dsimp only
    split
    · exact hp.1
    · rw [countHello_append, hp.1, ih _ _ _ hp.2]

/-- The move_data loop with an empty from-user FIFO emits no hello. -/
theorem move_data_loop_no_hello_of_empty_fifo (f : Nat → Nat) (now rtt maxPkt : Nat) :
    ∀ (fuel : Nat) (hs : Bool) (c : ConnEnv) (gi : Nat),
      c.fifoFrom = [] →
      countHello (move_data_loop f now rtt maxPkt fuel hs c gi).2.2 = 0 := by
  intro fuel
  induction fuel with
  | zero => intro hs c gi hf; simp [move_data_loop, countHello]
  | succ n ih =>
    intro hs c gi hf
    have hp := move_data_pass_no_hello_of_empty_fifo f now rtt maxPkt hs c gi hf
    unfold move_data_loop
    dsimp only
    split
    · exact hp.1
    · rw [countHello_append, hp.1, ih _ _ _ hp.2]

/-- A pass of the move_data loop never decreases the confirmed peer segment
number: only handle_message's promote branch touches it, and it only raises
it. -/
theorem move_data_pass_cur_mono (f : Nat → Nat) (now rtt maxPkt : Nat)
    (hs : Bool) (c : ConnEnv) (gi : Nat) :
    c.cs.current_peer_segnum ≤
      (move_data_pass f now rtt maxPkt hs c gi).1.cs.current_peer_segnum := by
  obtain ⟨cs, q, fifo⟩ := c
  cases q with
  | nil =>
    unfold move_data_pass
    dsimp only
    split_ifs with h1 h2 h3
    · exact Nat.le_of_eq ((create_packet_peer_frame f gi cs [] 0).1).symm
    · exact Nat.le_refl _
    · exact Nat.le_of_eq ((create_packet_peer_frame f gi cs (fifo.take (maxPkt - 40)) 0).1).symm
    · exact Nat.le_refl _
  | cons m rest =>
    unfold move_data_pass
    dsimp only
    have hmono := handle_message_peer_mono f gi now rtt cs m
    split_ifs with h1 h2 h3
    · exact le_trans hmono (Nat.le_of_eq ((create_packet_peer_frame f
        (handle_message f gi now rtt cs m).2.1
        (handle_message f gi now rtt cs m).1 [] 0).1).symm)
    · exact hmono
    · exact le_trans hmono (Nat.le_of_eq ((create_packet_peer_frame f
        (handle_message f gi now rtt cs m).2.1
        (handle_message f gi now rtt cs m).1 (fifo.take (maxPkt - 40)) 0).1).symm)
    · exact hmono

/-- The move_data loop never decreases the confirmed peer segment number. -/
theorem move_data_loop_cur_mono (f : Nat → Nat) (now rtt maxPkt : Nat) :
    ∀ (fuel : Nat) (hs : Bool) (c : ConnEnv) (gi : Nat),
      c.cs.current_peer_segnum ≤
        (move_data_loop f now rtt maxPkt fuel hs c gi).1.cs.current_peer_segnum := by
  intro fuel
  induction fuel with
  | zero => intro hs c gi; exact Nat.le_refl _
  | succ n ih =>
    intro hs c gi
    have hp := move_data_pass_cur_mono f now rtt maxPkt hs c gi
    unfold move_data_loop
    dsimp only
    split
    · exact hp
    · exact le_trans hp (ih _ _ _)

/-- After a pass that dequeued the message m, the confirmed peer segment
number is exactly what handle_message made of it: the outbound step never
changes it. -/
theorem move_data_pass_cons_cur (f : Nat → Nat) (now rtt maxPkt : Nat)
    (hs : Bool) (cs : ConnState) (m : Msg) (rest : List Msg) (fifo : List Nat)
    (gi : Nat) :
    (move_data_pass f now rtt maxPkt hs ⟨cs, m :: rest, fifo⟩ gi).1.cs.current_peer_segnum =
      (handle_message f gi now rtt cs m).1.current_peer_segnum := by
  unfold move_data_pass
  dsimp only
  split_ifs with h1 h2 h3
  · exact (create_packet_peer_frame f (handle_message f gi now rtt cs m).2.1
      (handle_message f gi now rtt cs m).1 [] 0).1
  · rfl
  · exact (create_packet_peer_frame f (handle_message f gi now rtt cs m).2.1
      (handle_message f gi now rtt cs m).1 (fifo.take (maxPkt - 40)) 0).1
  · rfl

/-- Once the hello_packet_sent flag is set, a pass emits no hello and keeps
the flag set, whatever the state. -/
theorem move_data_pass_hs_true (f : Nat → Nat) (now rtt maxPkt : Nat)
    (c : ConnEnv) (gi : Nat) :
    countHello (move_data_pass f now rtt maxPkt true c gi).2.2.1 = 0 ∧
    (move_data_pass f now rtt maxPkt true c gi).2.2.2.1 = true := by
  obtain ⟨cs, q, fifo⟩ := c
  cases q with
  | nil =>
    unfold move_data_pass
    dsimp only
    split_ifs with h1 h2 h3
    · simp at h2
    · exact ⟨by simp [countHello], rfl⟩
    · exact ⟨by simp [countHello, isHello], rfl⟩
    · exact ⟨by simp [countHello], rfl⟩
  | cons m rest =>
    unfold move_data_pass
    dsimp only
    have hmh := handle_message_no_hello f gi now rtt cs m
    split_ifs with h1 h2 h3
    · simp at h2
    · exact ⟨hmh, rfl⟩
    · refine ⟨?_, rfl⟩
      rw [countHello_append, hmh]
      simp [countHello, isHello]
    · exact ⟨hmh, rfl⟩

/-- Once the hello_packet_sent flag is set, the rest of the loop emits no
hello, whatever the budget and state: the flag is never cleared within one
move_data invocation. -/
theorem move_data_loop_hs_true (f : Nat → Nat) (now rtt maxPkt : Nat) :
    ∀ (fuel : Nat) (c : ConnEnv) (gi : Nat),
      countHello (move_data_loop f now rtt maxPkt fuel true c gi).2.2 = 0 := by
  intro fuel
  induction fuel with
  | zero => intro c gi; simp [move_data_loop, countHello]
  | succ n ih =>
    intro c gi
    have hp := move_data_pass_hs_true f now rtt maxPkt c gi
    unfold move_data_loop
    dsimp only
    split
    · exact hp.1
    · rw [countHello_append, hp.1, hp.2, ih _ _]

/-- The first pass on a Connection whose dequeued message leaves the peer
segment number unconfirmed, with bytes pending, sends exactly one hello, sets
the flag, and reports more data to do (a message was handled). -/
theorem move_data_pass_closed_cons (f : Nat → Nat) (now rtt maxPkt : Nat)
    (cs : ConnState) (m : Msg) (rest : List Msg) (fifo : List Nat) (gi : Nat)
    (hcur1 : (handle_message f gi now rtt cs m).1.current_peer_segnum = 0)
    (hfe : fifo.isEmpty = false) :
    countHello (move_data_pass f now rtt maxPkt false ⟨cs, m :: rest, fifo⟩ gi).2.2.1 = 1 ∧
    (move_data_pass f now rtt maxPkt false ⟨cs, m :: rest, fifo⟩ gi).2.2.2.1 = true ∧
    (move_data_pass f now rtt maxPkt false ⟨cs, m :: rest, fifo⟩ gi).2.2.2.2 = false := by
  have hmh := handle_message_no_hello f gi now rtt cs m
  unfold move_data_pass
  dsimp only
  rw [if_pos hcur1]
  have hcond : (!false && !fifo.isEmpty) = true := by rw [hfe]; rfl
  rw [if_pos hcond]
  refine ⟨?_, rfl, rfl⟩
  rw [countHello_append, hmh]
  simp [countHello, isHello]

/-- On a move_data invocation with positive budget, unknown peer segment
number and pending outward bytes, if the peer segment number is still unknown
when the invocation returns — equivalently, by monotonicity, if no handled
queued message confirmed one during it — then exactly one hello was sent. -/
theorem move_data_hello_once (f : Nat → Nat) (now rtt maxPkt gi b : Nat)
    (c : ConnEnv) (hcur : c.cs.current_peer_segnum = 0) (hf : c.fifoFrom ≠ [])
    (hfin : (move_data f now rtt maxPkt c gi (b + 1)).1.cs.current_peer_segnum = 0) :
    countHello (move_data f now rtt maxPkt c gi (b + 1)).2.2 = 1 := by
  obtain ⟨cs, q, fifo⟩ := c
  simp only [ConnEnv.cs] at hcur
  simp only [ConnEnv.fifoFrom] at hf
  have hfe : fifo.isEmpty = false := by
    cases fifo with
    | nil => exact absurd rfl hf
    | cons a as => rfl
  cases q with
  | nil =>
    unfold move_data move_data_loop move_data_pass
    dsimp only
    rw [if_pos hcur]
    simp [hfe, countHello, isHello]
  | cons m rest =>
    by_cases hcur1 : (handle_message f gi now rtt cs m).1.current_peer_segnum = 0
    · have hp := move_data_pass_closed_cons f now rtt maxPkt cs m rest fifo gi hcur1 hfe
      unfold move_data move_data_loop
      dsimp only
      rw [hp.2.2]
      simp only [Bool.false_eq_true, if_false]
      rw [countHello_append, hp.1, hp.2.1, move_data_loop_hs_true f now rtt maxPkt b _ _]
    · exfalso
      apply hcur1
      have hpm := move_data_pass_cons_cur f now rtt maxPkt false cs m rest fifo gi
      unfold move_data move_data_loop at hfin
      dsimp only at hfin
      by_cases hnm :
          (move_data_pass f now rtt maxPkt false ⟨cs, m :: rest, fifo⟩ gi).2.2.2.2 = true
      · rw [if_pos hnm] at hfin
        rw [hpm] at hfin
        exact hfin
      · rw [if_neg hnm] at hfin
        dsimp only at hfin
        have hmono := move_data_loop_cur_mono f now rtt maxPkt b
          ((move_data_pass f now rtt maxPkt false ⟨cs, m :: rest, fifo⟩ gi).2.2.2.1)
          ((move_data_pass f now rtt maxPkt false ⟨cs, m :: rest, fifo⟩ gi).1)
          ((move_data_pass f now rtt maxPkt false ⟨cs, m :: rest, fifo⟩ gi).2.1)
        rw [hpm] at hmono
        omega

/-- C10 (amended): on a move_data invocation with positive budget, a
Connection with unknown peer segment number and pending outward bytes sends
exactly one hello provided no handled queued message confirms a peer segment
number during the invocation — stated as: the peer segment number is still 0
when the invocation returns, which by monotonicity
(move_data_loop_cur_mono) holds exactly when no handled message confirmed
one.  No hello is ever sent when the peer segment number is already known at
entry, or when no outward bytes are pending.  (The claim's unconditional
"exactly one hello whenever current_peer_segnum = 0 and bytes are pending"
fails when a queued incoming packet confirms the peer segnum during the same
invocation; see c10_counterexample.) -/
theorem c10_amended (f : Nat → Nat) (now rtt maxPkt gi b : Nat) (c : ConnEnv) :
    (c.cs.current_peer_segnum = 0 → c.fifoFrom ≠ [] →
      (move_data f now rtt maxPkt c gi (b + 1)).1.cs.current_peer_segnum = 0 →
      countHello (move_data f now rtt maxPkt c gi (b + 1)).2.2 = 1) ∧
    (c.cs.current_peer_segnum ≠ 0 →
      countHello (move_data f now rtt maxPkt c gi (b + 1)).2.2 = 0) ∧
    (c.fifoFrom = [] →
      countHello (move_data f now rtt maxPkt c gi (b + 1)).2.2 = 0) := by
  refine ⟨?_, ?_, ?_⟩
  · exact move_data_hello_once f now rtt maxPkt gi b c
  · exact move_data_loop_no_hello_of_open f now rtt maxPkt (b + 1) false c gi
  · exact move_data_loop_no_hello_of_empty_fifo f now rtt maxPkt (b + 1) false c gi

/-- A queued well-formed message that fails authentication: it is handled
(the unconfirmed branch's decrypt check drops it) but can never confirm a
peer segment number. -/
def c10WitMsg : Msg := ⟨100, 7, 1, true, false, []⟩

/-- The Connection environment of the C10 witness: a closed Connection with
one pending byte and one queued non-confirming message. -/
def c10WitEnv : ConnEnv := ⟨connInit 100, [c10WitMsg], [5]⟩

/-- Witness for c10_amended on a closed Connection with one pending byte, a
non-empty queue holding one non-confirming message, and budget 5: the message
is handled first, the peer segment number stays 0 throughout, and exactly one
hello goes out. -/
theorem c10_amended_witness :
    ((c10WitEnv.cs.current_peer_segnum = 0 → c10WitEnv.fifoFrom ≠ [] →
        (move_data fStub 50 100 1000 c10WitEnv 0 (4 + 1)).1.cs.current_peer_segnum = 0 →
        countHello (move_data fStub 50 100 1000 c10WitEnv 0 (4 + 1)).2.2 = 1) ∧
     (c10WitEnv.cs.current_peer_segnum ≠ 0 →
        countHello (move_data fStub 50 100 1000 c10WitEnv 0 (4 + 1)).2.2 = 0) ∧
     (c10WitEnv.fifoFrom = [] →
        countHello (move_data fStub 50 100 1000 c10WitEnv 0 (4 + 1)).2.2 = 0)) ∧
    countHello (move_data fStub 50 100 1000 c10WitEnv 0 (4 + 1)).2.2 = 1 :=
  ⟨c10_amended fStub 50 100 1000 0 4 c10WitEnv,
   (c10_amended fStub 50 100 1000 0 4 c10WitEnv).1 (by decide) (by decide) (by decide)⟩

/-! ## C1: monotonicity of the segment number generator across restarts -/

/-- The generator invariant: at least segment number 1 is next, the current
reservation is covered by both on-disk files, and the reservation size is
positive (the constructor rejects 0). -/
def SNGInv (s : SNG) : Prop :=
  1 ≤ s.next_num_ ∧ s.next_num_ ≤ s.new_reserve_needed_ ∧
  s.new_reserve_needed_ ≤ s.disk_first + 1 ∧ s.new_reserve_needed_ ≤ s.disk_second + 1 ∧
  1 ≤ s.reserved_

/-- What a successful reservation guarantees: the new next number exceeds both
previous file values, the reservation is non-empty, and both files now hold
exactly the last reserved number. -/
theorem reserve_nums_spec (c : Nat) (s s1 : SNG) (hr : 1 ≤ s.reserved_)
    (h : reserve_nums c s = .ok s1) :
    s.disk_first < s1.next_num_ ∧ s.disk_second < s1.next_num_ ∧
    s1.next_num_ < s1.new_reserve_needed_ ∧
    s1.disk_first + 1 = s1.new_reserve_needed_ ∧
    s1.disk_second + 1 = s1.new_reserve_needed_ ∧
    s1.reserved_ = s.reserved_ ∧ 1 ≤ s1.next_num_ := by
  unfold reserve_nums get_saved_value at h
  split_ifs at h with h1 h2
  · dsimp only at h
    unfold reserve_from at h
    dsimp only at h
    split_ifs at h with hz hc hl
    have he := Except.ok.inj h
    subst he
    have hm1 : s.disk_first ≤ max s.disk_first s.disk_second := Nat.le_max_left _ _
    have hm2 : s.disk_second ≤ max s.disk_first s.disk_second := Nat.le_max_right _ _
    have hm3 : max s.disk_first s.disk_second + 1 ≤
        max (max s.disk_first s.disk_second + 1) c := Nat.le_max_left _ _
    refine ⟨?_, ?_, ?_, ?_, ?_, ?_, ?_⟩ <;> dsimp only <;> omega

/-- What one successful next_num() call guarantees: the invariant is preserved,
the returned value does not deceed the previous next number, it is covered by
both files afterwards, and the files never shrink. -/
theorem next_num_spec (c : Nat) (s : SNG) (hI : SNGInv s) (v : Nat) (s1 : SNG)
    (h : next_num c s = .ok (v, s1)) :
    SNGInv s1 ∧ s.next_num_ ≤ v ∧ v + 1 = s1.next_num_ ∧
    v ≤ s1.disk_first ∧ v ≤ s1.disk_second ∧
    s.disk_first ≤ s1.disk_first ∧ s.disk_second ≤ s1.disk_second := by
  obtain ⟨hI1, hI2, hI3, hI4, hI5⟩ := hI
  unfold next_num at h
  by_cases hc : s.next_num_ = s.new_reserve_needed_
  · rw [if_pos hc] at h
    cases hrn : reserve_nums c s with
    | error e =>
      rw [hrn] at h
      exact absurd h (by simp)
    | ok s2 =>
      rw [hrn] at h
      have hspec := reserve_nums_spec c s s2 hI5 hrn
      have h2 := Except.ok.inj h
      have hv : s2.next_num_ = v := congrArg Prod.fst h2
      have hs : ({ s2 with next_num_ := s2.next_num_ + 1 } : SNG) = s1 :=
        congrArg Prod.snd h2
      subst hv
      subst hs
      obtain ⟨ha, hb, hcc, hd, he, hf, hg⟩ := hspec
      refine ⟨⟨?_, ?_, ?_, ?_, ?_⟩, ?_, ?_, ?_, ?_, ?_, ?_⟩ <;> dsimp only <;> omega
  · rw [if_neg hc] at h
    have h2 := Except.ok.inj h
    have hv : s.next_num_ = v := congrArg Prod.fst h2
    have hs : ({ s with next_num_ := s.next_num_ + 1 } : SNG) = s1 :=
      congrArg Prod.snd h2
    subst hv
    subst hs
    have hlt : s.next_num_ < s.new_reserve_needed_ := Nat.lt_of_le_of_ne hI2 hc
    refine ⟨⟨?_, ?_, ?_, ?_, ?_⟩, ?_, ?_, ?_, ?_, ?_, ?_⟩ <;> dsimp only <;> omega

/-- What a run of next_num() calls guarantees: the invariant is preserved, the
next number and both files never shrink, the returned values are strictly
increasing, and every returned value lies between the initial next number and
the final file contents. -/
theorem SNGrun_spec (cs : List Nat) (s : SNG) (hI : SNGInv s) :
    SNGInv (SNGrun s cs).2 ∧
    s.next_num_ ≤ (SNGrun s cs).2.next_num_ ∧
    s.disk_first ≤ (SNGrun s cs).2.disk_first ∧
    s.disk_second ≤ (SNGrun s cs).2.disk_second ∧
    List.Pairwise (· < ·) (SNGrun s cs).1 ∧
    (∀ v ∈ (SNGrun s cs).1, s.next_num_ ≤ v ∧ v < (SNGrun s cs).2.next_num_ ∧
      v ≤ (SNGrun s cs).2.disk_first ∧ v ≤ (SNGrun s cs).2.disk_second) := by
  induction cs generalizing s with
  | nil =>
    refine ⟨hI, Nat.le_refl _, Nat.le_refl _, Nat.le_refl _, List.Pairwise.nil, ?_⟩
    intro v hv
    simp [SNGrun] at hv
  | cons c cs ih =>
    unfold SNGrun
    cases hn : next_num c s with
    | error e =>
      refine ⟨hI, Nat.le_refl _, Nat.le_refl _, Nat.le_refl _, List.Pairwise.nil, ?_⟩
      intro v hv
      simp at hv
    | ok p =>
      obtain ⟨v, s1⟩ := p
      have hstep := next_num_spec c s hI v s1 hn
      have hrec := ih s1 hstep.1
      dsimp only
      obtain ⟨hrI, hrn, hrd1, hrd2, hrp, hrm⟩ := hrec
      obtain ⟨hsI, hsle, hsnext, hsd1, hsd2, hsm1, hsm2⟩ := hstep
      refine ⟨hrI, by omega, by omega, by omega, ?_, ?_⟩
      · refine List.pairwise_cons.2 ⟨?_, hrp⟩
        intro u hu
        have := hrm u hu
        omega
      · intro u hu
        rcases List.mem_cons.1 hu with rfl | hu2
        · refine ⟨by omega, ?_, by omega, by omega⟩
          omega
        · have := hrm u hu2
          refine ⟨by omega, by omega, by omega, by omega⟩

/-- A run that starts with a forced reservation (as in a freshly constructed
generator) only produces values strictly above both previous file values. -/
theorem SNGrun_fresh (cs : List Nat) (s : SNG) (hI : SNGInv s)
    (h0 : s.next_num_ = s.new_reserve_needed_) :
    ∀ v ∈ (SNGrun s cs).1, s.disk_first < v ∧ s.disk_second < v := by
  cases cs with
  | nil =>
    intro v hv
    simp [SNGrun] at hv
  | cons c cs =>
    unfold SNGrun
    cases hn : next_num c s with
    | error e =>
      intro v hv
      simp at hv
    | ok p =>
      obtain ⟨v1, s1⟩ := p
      have hstep := next_num_spec c s hI v1 s1 hn
      have hfirst : s.disk_first < v1 ∧ s.disk_second < v1 := by
        unfold next_num at hn
        rw [if_pos h0] at hn
        cases hrn : reserve_nums c s with
        | error e =>
          rw [hrn] at hn
          exact absurd hn (by simp)
        | ok s2 =>
          rw [hrn] at hn
          have hspec := reserve_nums_spec c s s2 hI.2.2.2.2 hrn
          have hv : s2.next_num_ = v1 := congrArg Prod.fst (Except.ok.inj hn)
          subst hv
          exact ⟨hspec.1, hspec.2.1⟩
      have hrec := SNGrun_spec cs s1 hstep.1
      intro v hv
      dsimp only at hv
      rcases List.mem_cons.1 hv with rfl | hv2
      · exact hfirst
      · have := hrec.2.2.2.2.2 v hv2
        have h3 := hstep.2.2.1
        omega

/-- C1: the values produced by a generator run are strictly increasing, and
after a restart (a new generator constructed on the same two files, with any
positive reservation size) every new value strictly exceeds every value the
previous run produced.  The clock samples of both runs are arbitrary. -/
theorem c1_theorem (d1 d2 r r2 : Nat) (hr : 1 ≤ r) (hr2 : 1 ≤ r2)
    (cs1 cs2 : List Nat) :
    List.Pairwise (· < ·) (SNGrun (SNG.init d1 d2 r) cs1).1 ∧
    List.Pairwise (· < ·)
      (SNGrun (SNG.init (SNGrun (SNG.init d1 d2 r) cs1).2.disk_first
        (SNGrun (SNG.init d1 d2 r) cs1).2.disk_second r2) cs2).1 ∧
    ∀ v1 ∈ (SNGrun (SNG.init d1 d2 r) cs1).1,
      ∀ v2 ∈ (SNGrun (SNG.init (SNGrun (SNG.init d1 d2 r) cs1).2.disk_first
        (SNGrun (SNG.init d1 d2 r) cs1).2.disk_second r2) cs2).1, v1 < v2 := by
  have hI0 : SNGInv (SNG.init d1 d2 r) := by
    refine ⟨?_, ?_, ?_, ?_, ?_⟩ <;> dsimp only [SNG.init] <;> omega
  have h1 := SNGrun_spec cs1 _ hI0
  have hI1 : SNGInv (SNG.init (SNGrun (SNG.init d1 d2 r) cs1).2.disk_first
      (SNGrun (SNG.init d1 d2 r) cs1).2.disk_second r2) := by
    refine ⟨?_, ?_, ?_, ?_, ?_⟩ <;> dsimp only [SNG.init] <;> omega
  have h2 := SNGrun_spec cs2 _ hI1
  have hf := SNGrun_fresh cs2 _ hI1 rfl
  refine ⟨h1.2.2.2.2.1, h2.2.2.2.2.1, ?_⟩
  intro v1 hv1 v2 hv2
  have hb1 := h1.2.2.2.2.2 v1 hv1
  have hb2 := hf v2 hv2
  simp only [SNG.init] at hb1 hb2
  omega

/-- Witness for c1_theorem: files initially both 5, reservation size 1; the
first run (one call, clock 10) returns 10, and after the restart the second
run (one call, clock 3) returns 11. -/
theorem c1_theorem_witness :
    1 ≤ 1 ∧
    (List.Pairwise (· < ·) (SNGrun (SNG.init 5 5 1) [10]).1 ∧
     List.Pairwise (· < ·)
       (SNGrun (SNG.init (SNGrun (SNG.init 5 5 1) [10]).2.disk_first
         (SNGrun (SNG.init 5 5 1) [10]).2.disk_second 1) [3]).1 ∧
     ∀ v1 ∈ (SNGrun (SNG.init 5 5 1) [10]).1,
       ∀ v2 ∈ (SNGrun (SNG.init (SNGrun (SNG.init 5 5 1) [10]).2.disk_first
         (SNGrun (SNG.init 5 5 1) [10]).2.disk_second 1) [3]).1, v1 < v2) ∧
    (SNGrun (SNG.init 5 5 1) [10]).1 = [10] ∧
    (SNGrun (SNG.init (SNGrun (SNG.init 5 5 1) [10]).2.disk_first
      (SNGrun (SNG.init 5 5 1) [10]).2.disk_second 1) [3]).1 = [11] :=
  ⟨Nat.le_refl 1, c1_theorem 5 5 1 1 (Nat.le_refl 1) (Nat.le_refl 1) [10] [3],
   by decide, by decide⟩

/-! ## C2: global uniqueness of (sender segnum, message number) pairs -/

/-- The local segment number a Connection currently emits under. -/
def clsOf : ConnState → Nat := fun c => c.current_local_segnum

/-- Setting an entry of a list to its own value changes nothing. -/
theorem list_set_self {α : Type} : ∀ (l : List α) (j : Nat) (h : j < l.length),
    l.set j (l[j]) = l
  | _ :: _, 0, _ => rfl
  | a :: t, j + 1, h => by
    have ih := list_set_self t j (by simpa using h)
    simp only [List.set_cons_succ, List.getElem_cons_succ]
    rw [ih]

/-- Replacing one entry of a duplicate-free list by a value that occurs nowhere
in the list keeps it duplicate-free. -/
theorem pairwise_ne_set {l : List Nat} (hp : List.Pairwise (· ≠ ·) l) (a : Nat)
    (ha : a ∉ l) : ∀ (j : Nat), List.Pairwise (· ≠ ·) (l.set j a) := by
  induction l with
  | nil => intro j; exact hp
  | cons b t ih =>
    intro j
    have hp' := List.pairwise_cons.1 hp
    have hat : a ∉ t := fun hm => ha (List.mem_cons_of_mem b hm)
    have hab : a ≠ b := fun he => ha (by simp [he])
    cases j with
    | zero =>
      rw [List.set_cons_zero]
      refine List.pairwise_cons.2 ⟨?_, hp'.2⟩
      intro x hx he
      exact hat (he ▸ hx)
    | succ n =>
      rw [List.set_cons_succ]
      refine List.pairwise_cons.2 ⟨?_, ih hp'.2 hat n⟩
      intro x hx
      rcases List.mem_or_eq_of_mem_set hx with hx' | rfl
      · exact hp'.1 x hx'
      · exact fun he => hab he.symm

/-- The two behaviours of create_packet: no rollover (emit the current next
message number under the current local segnum and bump the counter) or
rollover (draw a fresh segnum from the generator, emit message number 1, leave
the counter at 2). -/
theorem create_packet_cases (f : Nat → Nat) (gi : Nat) (cs : ConnState)
    (data : List Nat) (ov : Nat) :
    (¬ msgnum_max < cs.local_next_msgnum ∧
      create_packet f gi cs data ov =
        (⟨if ov = 0 then cs.current_peer_segnum else ov, cs.current_local_segnum,
           cs.local_next_msgnum, data⟩,
         { cs with local_next_msgnum := cs.local_next_msgnum + 1 }, gi)) ∨
    (msgnum_max < cs.local_next_msgnum ∧
      create_packet f gi cs data ov =
        (⟨if ov = 0 then cs.current_peer_segnum else ov, f gi, 1, data⟩,
         { cs with
             old_local_segnum := cs.current_local_segnum,
             current_local_segnum := f gi, local_next_msgnum := 2 }, gi + 1)) := by
  by_cases h : msgnum_max < cs.local_next_msgnum
  · right
    refine ⟨h, ?_⟩
    unfold create_packet
    rw [if_pos h]
  · left
    refine ⟨h, ?_⟩
    unfold create_packet
    rw [if_neg h]

/-- The emission invariant of the whole program: every Connection's current
local segnum was drawn from the generator; every historical pair was emitted
under a drawn segnum; the live segnums are pairwise distinct; pairs under a
live segnum stay below that Connection's next message number; and all emitted
pairs are pairwise distinct. -/
def ProgInv (f : Nat → Nat) (st : ProgState) : Prop :=
  (∀ cs ∈ st.conns, ∃ i, i < st.gen_idx ∧ clsOf cs = f i) ∧
  (∀ p ∈ st.hist, ∃ i, i < st.gen_idx ∧ p.1 = f i) ∧
  (st.conns.map clsOf).Nodup ∧
  (∀ p ∈ st.hist, ∀ cs ∈ st.conns, p.1 = clsOf cs → p.2 < cs.local_next_msgnum) ∧
  List.Pairwise (· ≠ ·) st.hist

/-- One program step preserves the emission invariant when the generator
stream is injective. -/
theorem prog_step_inv (f : Nat → Nat) (hf : Function.Injective f) (st : ProgState)
    (hI : ProgInv f st) : ∀ e, ProgInv f (prog_step f st e) := by
  obtain ⟨hA, hB, hC, hD, hE⟩ := hI
  intro e
  cases e with
  | newConn =>
    dsimp only [prog_step]
    refine ⟨?_, ?_, ?_, ?_, hE⟩
    · intro cs hcs
      rcases List.mem_append.1 hcs with hm | hm
      · obtain ⟨i, hi, he⟩ := hA cs hm
        exact ⟨i, Nat.lt_succ_of_lt hi, he⟩
      · have hm2 : cs = connInit (f st.gen_idx) := by simpa using hm
        subst hm2
        exact ⟨st.gen_idx, Nat.lt_succ_self _, rfl⟩
    · intro p hp
      obtain ⟨i, hi, he⟩ := hB p hp
      exact ⟨i, Nat.lt_succ_of_lt hi, he⟩
    · rw [List.map_append]
      refine List.pairwise_append.2 ⟨hC, List.pairwise_singleton _ _, ?_⟩
      intro x hx b hb
      have hb2 : b = f st.gen_idx := by simpa [clsOf, connInit] using hb
      obtain ⟨cs, hcs, rfl⟩ := List.mem_map.1 hx
      obtain ⟨i, hi, he⟩ := hA cs hcs
      rw [he, hb2]
      intro hcontra
      have : i = st.gen_idx := hf hcontra
      omega
    · intro p hp cs hcs hseg
      rcases List.mem_append.1 hcs with hm | hm
      · exact hD p hp cs hm hseg
      · have hm2 : cs = connInit (f st.gen_idx) := by simpa using hm
        subst hm2
        obtain ⟨i, hi, he⟩ := hB p hp
        rw [he] at hseg
        have : i = st.gen_idx := hf hseg
        omega
  | emit j data ov =>
    cases hq : st.conns[j]? with
    | none =>
      simp only [prog_step, hq]
      exact ⟨hA, hB, hC, hD, hE⟩
    | some cs =>
      obtain ⟨hj, hcs⟩ := List.getElem?_eq_some.1 hq
      have hmem : cs ∈ st.conns := hcs ▸ List.getElem_mem hj
      obtain ⟨ic, hic, hec⟩ := hA cs hmem
      have hjm : j < (st.conns.map clsOf).length := by simpa using hj
      simp only [prog_step, hq]
      rcases create_packet_cases f st.gen_idx cs data ov with ⟨hnr, hcp⟩ | ⟨hr, hcp⟩
      · -- no rollover: the pair (cs.cls, cs.next) is appended
        rw [hcp]
        dsimp only
        have hmapeq :
            ((st.conns.set j { cs with
               local_next_msgnum := cs.local_next_msgnum + 1 }).map clsOf) =
            st.conns.map clsOf := by
          rw [List.map_set]
          have hgq : clsOf { cs with local_next_msgnum := cs.local_next_msgnum + 1 } =
              (st.conns.map clsOf)[j] := by
            rw [List.getElem_map, hcs]
            rfl
          rw [hgq, list_set_self _ _ hjm]
        have hC' : ((st.conns.set j { cs with
            local_next_msgnum := cs.local_next_msgnum + 1 }).map clsOf).Nodup :=
          hmapeq ▸ hC
        have hQmem : ({ cs with local_next_msgnum := cs.local_next_msgnum + 1 } : ConnState) ∈
            st.conns.set j { cs with local_next_msgnum := cs.local_next_msgnum + 1 } := by
          have hjq : j < (st.conns.set j { cs with
              local_next_msgnum := cs.local_next_msgnum + 1 }).length := by simpa using hj
          have hset := List.getElem_set_self hjq
          nth_rewrite 2 [← hset]
          exact List.getElem_mem hjq
        refine ⟨?_, ?_, hC', ?_, ?_⟩
        · intro cs' hcs'
          rcases List.mem_or_eq_of_mem_set hcs' with hm | rfl
          · exact hA cs' hm
          · exact ⟨ic, hic, hec⟩
        · intro p hp
          rcases List.mem_append.1 hp with hm | hm
          · exact hB p hm
          · have hm2 : p = (cs.current_local_segnum, cs.local_next_msgnum) := by
              simpa using hm
            subst hm2
            exact ⟨ic, hic, hec⟩
        · intro p hp cs' hcs' hseg
          rcases List.mem_append.1 hp with hm | hm
          · rcases List.mem_or_eq_of_mem_set hcs' with hm' | rfl
            · exact hD p hm cs' hm' hseg
            · have hlt : p.2 < cs.local_next_msgnum := hD p hm cs hmem hseg
              exact Nat.lt_succ_of_lt hlt
          · have hm2 : p = (cs.current_local_segnum, cs.local_next_msgnum) := by
              simpa using hm
            subst hm2
            have heq : cs' = { cs with local_next_msgnum := cs.local_next_msgnum + 1 } :=
              List.inj_on_of_nodup_map hC' hcs' hQmem hseg.symm
            subst heq
            exact Nat.lt_succ_self _
        · refine List.pairwise_append.2 ⟨hE, List.pairwise_singleton _ _, ?_⟩
          intro a ha b hb
          have hb2 : b = (cs.current_local_segnum, cs.local_next_msgnum) := by simpa using hb
          subst hb2
          intro hab
          have hlt := hD a ha cs hmem (by rw [hab]; rfl)
          rw [hab] at hlt
          exact Nat.lt_irrefl _ hlt
      · -- rollover: a fresh segnum f gen_idx is drawn, the pair (f gen_idx, 1) appended
        rw [hcp]
        dsimp only
        have hfresh : f st.gen_idx ∉ st.conns.map clsOf := by
          intro hmf
          obtain ⟨cs', hcs', he'⟩ := List.mem_map.1 hmf
          obtain ⟨i, hi, he2⟩ := hA cs' hcs'
          rw [he2] at he'
          have : i = st.gen_idx := hf he'
          omega
        have hmapset :
            ((st.conns.set j { cs with
               old_local_segnum := cs.current_local_segnum,
               current_local_segnum := f st.gen_idx,
               local_next_msgnum := 2 }).map clsOf) =
            (st.conns.map clsOf).set j (f st.gen_idx) := by
          rw [List.map_set]
          rfl
        have hC' : ((st.conns.set j { cs with
            old_local_segnum := cs.current_local_segnum,
            current_local_segnum := f st.gen_idx,
            local_next_msgnum := 2 }).map clsOf).Nodup := by
          rw [hmapset]
          exact pairwise_ne_set hC (f st.gen_idx) hfresh j
        have hQmem : ({ cs with
            old_local_segnum := cs.current_local_segnum,
            current_local_segnum := f st.gen_idx,
            local_next_msgnum := 2 } : ConnState) ∈
            st.conns.set j { cs with
              old_local_segnum := cs.current_local_segnum,
              current_local_segnum := f st.gen_idx,
              local_next_msgnum := 2 } := by
          have hjq : j < (st.conns.set j { cs with
              old_local_segnum := cs.current_local_segnum,
              current_local_segnum := f st.gen_idx,
              local_next_msgnum := 2 }).length := by simpa using hj
          have hset := List.getElem_set_self hjq
          nth_rewrite 2 [← hset]
          exact List.getElem_mem hjq
        refine ⟨?_, ?_, hC', ?_, ?_⟩
        · intro cs' hcs'
          rcases List.mem_or_eq_of_mem_set hcs' with hm | rfl
          · obtain ⟨i, hi, he⟩ := hA cs' hm
            exact ⟨i, Nat.lt_succ_of_lt hi, he⟩
          · exact ⟨st.gen_idx, Nat.lt_succ_self _, rfl⟩
        · intro p hp
          rcases List.mem_append.1 hp with hm | hm
          · obtain ⟨i, hi, he⟩ := hB p hm
            exact ⟨i, Nat.lt_succ_of_lt hi, he⟩
          · have hm2 : p = (f st.gen_idx, 1) := by simpa using hm
            subst hm2
            exact ⟨st.gen_idx, Nat.lt_succ_self _, rfl⟩
        · intro p hp cs' hcs' hseg
          rcases List.mem_append.1 hp with hm | hm
          · rcases List.mem_or_eq_of_mem_set hcs' with hm' | rfl
            · exact hD p hm cs' hm' hseg
            · obtain ⟨i, hi, he⟩ := hB p hm
              rw [he] at hseg
              have : i = st.gen_idx := hf hseg
              omega
          · have hm2 : p = (f st.gen_idx, 1) := by simpa using hm
            subst hm2
            have hg : clsOf cs' = clsOf ({ cs with
                old_local_segnum := cs.current_local_segnum,
                current_local_segnum := f st.gen_idx,
                local_next_msgnum := 2 } : ConnState) := hseg.symm
            have hex : cs' = { cs with
                old_local_segnum := cs.current_local_segnum,
                current_local_segnum := f st.gen_idx,
                local_next_msgnum := 2 } :=
              List.inj_on_of_nodup_map hC' hcs' hQmem hg
            subst hex
            exact Nat.one_lt_two
        · refine List.pairwise_append.2 ⟨hE, List.pairwise_singleton _ _, ?_⟩
          intro a ha b hb
          have hb2 : b = (f st.gen_idx, 1) := by simpa using hb
          subst hb2
          intro hab
          obtain ⟨i, hi, he⟩ := hB a ha
          rw [hab] at he
          have : i = st.gen_idx := hf he.symm
          omega

/-- The emission invariant holds after any program run. -/
theorem prog_run_inv (f : Nat → Nat) (hf : Function.Injective f) (evs : List PEvent) :
    ProgInv f (prog_run f evs) := by
  have h0 : ProgInv f ⟨0, [], []⟩ :=
    ⟨by simp, by simp, by simp [List.Nodup], by simp, List.Pairwise.nil⟩
  have hfold : ∀ (st : ProgState), ProgInv f st →
      ProgInv f (evs.foldl (prog_step f) st) := by
    induction evs with
    | nil => intro st h; simpa using h
    | cons e evs ih =>
      intro st h
      exact ih _ (prog_step_inv f hf st h e)
  exact hfold _ h0

/-- C2: if the shared generator never hands out the same segment number twice
(an injective stream), then over any interleaving of Connection creations and
create_packet calls on any Connections, all emitted (sender segment number,
message number) pairs are pairwise distinct; moreover, while no rollover is
needed, each emission uses the current local segnum with the current next
message number and advances that number by exactly 1. -/
theorem c2_theorem (f : Nat → Nat) (hf : Function.Injective f) (evs : List PEvent) :
    List.Pairwise (· ≠ ·) (prog_run f evs).hist ∧
    (∀ gi cs data ov, ¬ msgnum_max < cs.local_next_msgnum →
      (create_packet f gi cs data ov).1.send_segnum = cs.current_local_segnum ∧
      (create_packet f gi cs data ov).1.msgnum = cs.local_next_msgnum ∧
      (create_packet f gi cs data ov).2.1.local_next_msgnum = cs.local_next_msgnum + 1) := by
  refine ⟨(prog_run_inv f hf evs).2.2.2.2, ?_⟩
  intro gi cs data ov hnr
  rcases create_packet_cases f gi cs data ov with ⟨h1, hcp⟩ | ⟨h1, hcp⟩
  · rw [hcp]
    exact ⟨rfl, rfl, rfl⟩
  · exact absurd h1 hnr

/-- The event list of the C2 witness: one Connection is created and emits two
packets. -/
def c2WitEvents : List PEvent :=
  [PEvent.newConn, PEvent.emit 0 [3] 0, PEvent.emit 0 [4] 0]

/-- Witness for c2_theorem with the injective stream n ↦ n + 1: the run
produces the history [(1, 1), (1, 2)], pairwise distinct. -/
theorem c2_theorem_witness :
    Function.Injective (fun n : Nat => n + 1) ∧
    (List.Pairwise (· ≠ ·) (prog_run (fun n : Nat => n + 1) c2WitEvents).hist ∧
     (∀ gi cs data ov, ¬ msgnum_max < cs.local_next_msgnum →
       (create_packet (fun n : Nat => n + 1) gi cs data ov).1.send_segnum =
         cs.current_local_segnum ∧
       (create_packet (fun n : Nat => n + 1) gi cs data ov).1.msgnum =
         cs.local_next_msgnum ∧
       (create_packet (fun n : Nat => n + 1) gi cs data ov).2.1.local_next_msgnum =
         cs.local_next_msgnum + 1)) ∧
    (prog_run (fun n : Nat => n + 1) c2WitEvents).hist = [(1, 1), (1, 2)] :=
  ⟨fun a b h => Nat.add_right_cancel h,
   c2_theorem (fun n : Nat => n + 1) (fun a b h => Nat.add_right_cancel h) c2WitEvents,
   by decide⟩

end Cryptocomms
